import Mathlib

/-!
Verification of the AirLink-EDU air-quality logger firmware core.

The development shallowly embeds the two firmware variants' shared core
(the PMS7003 frame reader `readPMS`, the output-record checksum
`calculateChecksum`, and the sampling/averaging loop `collectData`) as
executable Lean functions and proves the specified properties about them.

Machine integers are embedded as `Nat` with explicit `% 2 ^ w` where the
C type could wrap (`uint8_t` wire bytes as `% 256`, the `uint16_t` frame
checksum accumulator as `% 65536`, the `uint32_t` channel accumulators as
`% 4294967296`).  The serial byte stream is embedded as a `List Nat` of
the bytes that arrive during the call; timing-sensitive behaviour of the
sync-search loop is embedded separately with an explicit millisecond
clock (`syncSearchT`).
-/

namespace AirLink

/-- Configuration constant `PMS_TIMEOUT` (milliseconds). -/
def PMS_TIMEOUT : Nat := 2000

/-- Configuration constant `NUM_SAMPLES` (target number of good samples N). -/
def NUM_SAMPLES : Nat := 5

/-- Configuration constant `MIN_VALID_SAMPLES` (quorum threshold M);
named `MIN_SAMPLES` in the networked variant. -/
def MIN_VALID_SAMPLES : Nat := 3

/-- The `PMSData` struct: the three extracted particulate channels
(`uint16_t pm1_0, pm2_5, pm10_0`). -/
structure PMSData where
  pm1_0 : Nat
  pm2_5 : Nat
  pm10_0 : Nat
deriving DecidableEq

/-- The sync-search phase of `readPMS`, on a stream of promptly available
bytes: scan for `0x42`; after a `0x42`, read the next byte and test it
against `0x4D`; on mismatch continue scanning after the failed byte.
Returns the stream suffix after the sync pair, or `none` when the stream
is exhausted without finding the pair (the loop then spins until the
timeout and `readPMS` returns `false`).  Bytes are `uint8_t`, hence
`% 256`. -/
def syncScan : List Nat → Option (List Nat)
  | [] => none
  | [_] => none
  | a :: b :: t =>
    if a % 256 = 0x42 then
      if b % 256 = 0x4D then some t else syncScan t
    else syncScan (b :: t)

/-- `readPMS` (part_000 lines 35-65, kuuki.ino lines 110-131): find the
sync pair, read the 30-byte body, verify the 16-bit arithmetic checksum
(`uint16_t sum = 0x42 + 0x4D; sum += buffer[i]` for `i < 28` versus
`(buffer[28] << 8) | buffer[29]`), and only then extract the three PM
fields.  Returns (success flag, resulting `pmsData`, remaining stream);
`d` is the value of the global `pmsData` before the call. -/
def readPMS (s : List Nat) (d : PMSData) : Bool × PMSData × List Nat :=
  match syncScan s with
  | none => (false, d, [])
  | some rest =>
    if rest.length < 30 then (false, d, [])
    else if (0x42 + 0x4D + (((rest.take 30).map (fun b => b % 256)).take 28).sum) % 65536 ≠
        ((rest.take 30).map (fun b => b % 256)).getD 28 0 * 256 +
          ((rest.take 30).map (fun b => b % 256)).getD 29 0 then
      (false, d, rest.drop 30)
    else
      (true,
       ⟨((rest.take 30).map (fun b => b % 256)).getD 2 0 * 256 +
           ((rest.take 30).map (fun b => b % 256)).getD 3 0,
         ((rest.take 30).map (fun b => b % 256)).getD 4 0 * 256 +
           ((rest.take 30).map (fun b => b % 256)).getD 5 0,
         ((rest.take 30).map (fun b => b % 256)).getD 6 0 * 256 +
           ((rest.take 30).map (fun b => b % 256)).getD 7 0⟩,
       rest.drop 30)

/-- `calculateChecksum` (part_000 lines 68-75): XOR of the characters of
the formatted record, skipping commas, into a `uint8_t` accumulator. -/
def calculateChecksum (s : String) : Nat :=
  s.data.foldl (fun chk c => if c = ',' then chk else (Nat.xor chk c.toNat) % 256) 0

/-- One base-16 digit as rendered by the Arduino core: `'0'`-`'9'`,
then uppercase `'A'`-`'F'`. -/
def hexDigit (d : Nat) : Char := if d < 10 then Char.ofNat (48 + d) else Char.ofNat (55 + d)

/-- Digits of `n` in base 16, most significant first, empty for `n = 0`;
the first argument is structural fuel (`fuel = n` suffices since `n / 16`
shrinks). -/
def printHexAux : Nat → Nat → List Char
  | 0, _ => []
  | fuel + 1, n => if n = 0 then [] else printHexAux fuel (n / 16) ++ [hexDigit (n % 16)]

/-- Rendering of `Serial.println(checksum, HEX)` (part_000 line 138):
the Arduino core's `Print::printNumber` emits the base-16 digits of the
value with uppercase letters and no leading-zero padding (a do-while, so
`0` prints as `"0"`). -/
def printHex (n : Nat) : String :=
  if n = 0 then "0" else String.mk (printHexAux n n)

/-- Spec-side description of the output-record checksum: the XOR of every
character in the formatted field list excluding comma separators. -/
def xorNonComma (s : String) : Nat :=
  s.data.foldl (fun a c => if c = ',' then a else Nat.xor a c.toNat) 0

/-- The per-cycle accumulator of the sampling loop: `uint32_t sum_pm1,
sum_pm25, sum_pm10` and `uint8_t validSamples`. -/
structure Acc where
  sum_pm1 : Nat
  sum_pm25 : Nat
  sum_pm10 : Nat
  valid : Nat
deriving DecidableEq

/-- The sampling loop `for (uint8_t i = 0; i < NUM_SAMPLES * 2 &&
validSamples < NUM_SAMPLES; i++)` (part_000 lines 100-108, kuuki.ino
lines 142-153).  `o n` is the outcome of the `n`-th `readPMS` invocation
(`some d` when it returns `true` having set `pmsData := d`).  The
structural `fuel` argument renders the bound `i < NUM_SAMPLES * 2`
(initial call: `fuel = NUM_SAMPLES * 2`, `i = 0`); `calls` counts
`readPMS` invocations.  Accumulator additions are `uint32_t`
(`% 4294967296`), the sample counter is `uint8_t` (`% 256`). -/
def collectLoop (o : Nat → Option PMSData) : Nat → Nat → Acc → Nat → Acc × Nat
  | 0, _, acc, calls => (acc, calls)
  | fuel + 1, i, acc, calls =>
    if acc.valid < NUM_SAMPLES then
      match o i with
      | some d =>
        collectLoop o fuel (i + 1)
          ⟨(acc.sum_pm1 + d.pm1_0) % 4294967296,
           (acc.sum_pm25 + d.pm2_5) % 4294967296,
           (acc.sum_pm10 + d.pm10_0) % 4294967296,
           (acc.valid + 1) % 256⟩ (calls + 1)
      | none => collectLoop o fuel (i + 1) acc (calls + 1)
    else (acc, calls)

/-- The sampling loop run from its initial state (sums and counters
zeroed at the start of every cycle). -/
def runCollect (o : Nat → Option PMSData) : Acc × Nat :=
  collectLoop o (NUM_SAMPLES * 2) 0 ⟨0, 0, 0, 0⟩ 0

/-- Number of `readPMS` invocations the cycle performs. -/
def readerCalls (o : Nat → Option PMSData) : Nat := (runCollect o).2

/-- `collectData` (kuuki.ino lines 133-165; the same logic is inline in
part_000's `loop`, lines 95-119): run the sampling loop, return no
reading when fewer than `MIN_VALID_SAMPLES` frames were valid, else the
three truncated averages, each assigned to a 16-bit variable
(`% 65536`). -/
def collectData (o : Nat → Option PMSData) : Option PMSData :=
  if ((runCollect o).1).valid < MIN_VALID_SAMPLES then none
  else some ⟨(runCollect o).1.sum_pm1 / (runCollect o).1.valid % 65536,
             (runCollect o).1.sum_pm25 / (runCollect o).1.valid % 65536,
             (runCollect o).1.sum_pm10 / (runCollect o).1.valid % 65536⟩

/-- The particulate part of the CSV line built by part_000's `loop`
(lines 127-131): `"%u,%u,%u,"` followed by the four environmental float
fields, which belong to the excluded BME280 collaborator and are
abstracted as the given `env` string. -/
def csvFields (r : PMSData) (env : String) : String :=
  toString r.pm1_0 ++ "," ++ toString r.pm2_5 ++ "," ++ toString r.pm10_0 ++ "," ++ env

/-- The record emitted by one cycle of part_000's `loop`: `none` when the
cycle is skipped for lack of quorum (early `return` before any printing),
else the CSV field string and its XOR checksum. -/
def cycleRecord (o : Nat → Option PMSData) (env : String) : Option (String × Nat) :=
  match collectData o with
  | none => none
  | some r => some (csvFields r env, calculateChecksum (csvFields r env))

/-- Spec-side mirror of the sampling loop: the list of frames the loop
accepts, starting from attempt index `i` with `v` frames already
accepted. -/
def acceptedFrom (o : Nat → Option PMSData) : Nat → Nat → Nat → List PMSData
  | 0, _, _ => []
  | fuel + 1, i, v =>
    if v < NUM_SAMPLES then
      match o i with
      | some d => d :: acceptedFrom o fuel (i + 1) (v + 1)
      | none => acceptedFrom o fuel (i + 1) v
    else []

/-- The frames accepted in one full cycle. -/
def accepted (o : Nat → Option PMSData) : List PMSData :=
  acceptedFrom o (NUM_SAMPLES * 2) 0 0

/-- Spec-side mirror of the sampling loop: how many attempts it makes,
starting from attempt index `i` with `v` frames already accepted. -/
def itersFrom (o : Nat → Option PMSData) : Nat → Nat → Nat → Nat
  | 0, _, _ => 0
  | fuel + 1, i, v =>
    if v < NUM_SAMPLES then
      match o i with
      | some _ => itersFrom o fuel (i + 1) (v + 1) + 1
      | none => itersFrom o fuel (i + 1) v + 1
    else 0

/-- Number of valid outcomes among the first `n` attempt outcomes. -/
def validCount (o : Nat → Option PMSData) : Nat → Nat
  | 0 => 0
  | n + 1 => validCount o n + (if (o n).isSome then 1 else 0)

/-- Whether the two-byte sync sequence `0x42, 0x4D` occurs anywhere in
the stream (as adjacent bytes). -/
def hasSyncPair : List Nat → Bool
  | [] => false
  | [_] => false
  | a :: b :: t => (a % 256 == 0x42 && b % 256 == 0x4D) || hasSyncPair (b :: t)

/-- The sync-search loop of `readPMS` with its timeout made explicit
(part_000 lines 39-47): `clock n` is the value `millis()` returns at the
`n`-th evaluation of the loop condition, `clock 0` being `startTime`.
Each iteration first checks `millis() - startTime < PMS_TIMEOUT`, then
consumes bytes exactly as `syncScan` does; when the stream is exhausted
the loop keeps polling (`available()` stays false) until the deadline
check fails.  Returns (sync found, index of the final condition check,
remaining stream); the structural `fuel` bounds the recursion and is
irrelevant whenever the deadline is reached within `fuel` checks. -/
def syncSearchT (clock : Nat → Nat) : Nat → Nat → List Nat → Bool × Nat × List Nat
  | 0, n, s => (false, n, s)
  | fuel + 1, n, s =>
    if PMS_TIMEOUT ≤ clock n - clock 0 then (false, n, s)
    else
      match s with
      | [] => syncSearchT clock fuel (n + 1) []
      | [_] => syncSearchT clock fuel (n + 1) []
      | a :: b :: t =>
        if a % 256 = 0x42 then
          if b % 256 = 0x4D then (true, n, t)
          else syncSearchT clock fuel (n + 1) t
        else syncSearchT clock fuel (n + 1) (b :: t)

/-- The sync search as the spec states it, by positions in the stream:
scan index `i` looks for `0x42`; if the following byte is not `0x4D`,
resynchronization continues from the position after the failed byte
(`i + 2`), never re-examining consumed bytes.  Returns the position of
the sync pair's first byte. -/
def specScan (s : List Nat) (i : Nat) : Option Nat :=
  if h1 : i < s.length then
    if s.getD i 0 % 256 = 0x42 then
      if h2 : i + 1 < s.length then
        if s.getD (i + 1) 0 % 256 = 0x4D then some i
        else specScan s (i + 2)
      else none
    else specScan s (i + 1)
  else none
termination_by s.length - i
decreasing_by
  all_goals omega

end AirLink

-- ===== Helper lemmas =====

namespace AirLink

/-- The XOR accumulator of `calculateChecksum` stays below 256. -/
lemma foldl_chk_lt (l : List Char) (a : Nat) (ha : a < 256) :
    l.foldl (fun chk c => if c = ',' then chk else (Nat.xor chk c.toNat) % 256) a < 256 := by
  induction l generalizing a with
  | nil => exact ha
  | cons c t ih =>
    simp only [List.foldl_cons]
    by_cases hc : c = ','
    · rw [if_pos hc]; exact ih a ha
    · rw [if_neg hc]; exact ih _ (Nat.mod_lt _ (by norm_num))

/-- XOR of two byte values is a byte value. -/
lemma xor_byte_lt (a b : Nat) (ha : a < 256) (hb : b < 256) : Nat.xor a b < 256 := by
  have h2 : (256 : Nat) = 2 ^ 8 := by norm_num
  have h : Nat.bitwise bne a b < 2 ^ 8 := Nat.bitwise_lt (h2 ▸ ha) (h2 ▸ hb)
  simpa [Nat.xor, h2] using h

/-- On byte-valued characters, the `uint8_t` XOR fold agrees with the
untruncated XOR fold over the comma-free characters. -/
lemma foldl_chk_eq (l : List Char) (a : Nat) (ha : a < 256)
    (hl : ∀ c ∈ l, c.toNat < 256) :
    l.foldl (fun chk c => if c = ',' then chk else (Nat.xor chk c.toNat) % 256) a =
      l.foldl (fun x c => if c = ',' then x else Nat.xor x c.toNat) a := by
  induction l generalizing a with
  | nil => rfl
  | cons c t ih =>
    have hmem : ∀ x ∈ t, x.toNat < 256 := fun x hx => hl x (List.mem_cons_of_mem c hx)
    by_cases hc : c = ','
    · simp only [List.foldl_cons, if_pos hc]
      exact ih a ha hmem
    · have hx : Nat.xor a c.toNat < 256 :=
        xor_byte_lt a c.toNat ha (hl c (List.mem_cons_self c t))
      simp only [List.foldl_cons, if_neg hc, Nat.mod_eq_of_lt hx]
      exact ih _ hx hmem

/-- `calculateChecksum` always fits in a byte. -/
lemma calculateChecksum_lt (s : String) : calculateChecksum s < 256 :=
  foldl_chk_lt s.data 0 (by norm_num)

end AirLink

-- ===== Claim theorems (first batch) =====

namespace AirLink

/-- C1: whenever `readPMS` returns success, the trailing big-endian
16-bit field of the 30-byte frame body (bytes 28-29) equals the
arithmetic sum, modulo 65536, of the sync bytes `0x42` and `0x4D` plus
the first 28 body bytes. -/
theorem C1_readPMS_checksum (s : List Nat) (d : PMSData)
    (h : (readPMS s d).1 = true) :
    ∃ rest, syncScan s = some rest ∧ 30 ≤ rest.length ∧
      ((rest.take 30).map (fun b => b % 256)).getD 28 0 * 256 +
          ((rest.take 30).map (fun b => b % 256)).getD 29 0 =
        (0x42 + 0x4D + (((rest.take 30).map (fun b => b % 256)).take 28).sum) % 65536 := by
  revert h
  unfold readPMS
  split
  · intro h; simp at h
  next rest heq =>
    split
    · intro h; simp at h
    next hl =>
      split
      next hc => intro h; simp at h
      next hc => intro _; push_neg at hc; exact ⟨rest, heq, by omega, hc.symm⟩

/-- C1 witness: a concrete stream carrying one valid all-zero frame
(checksum `0x008F`) on which `readPMS` succeeds. -/
theorem C1_readPMS_checksum_witness :
    (readPMS (0x42 :: 0x4D :: (List.replicate 28 0 ++ [0, 0x8F])) ⟨0, 0, 0⟩).1 = true ∧
    ∃ rest, syncScan (0x42 :: 0x4D :: (List.replicate 28 0 ++ [0, 0x8F])) = some rest ∧
      30 ≤ rest.length ∧
      ((rest.take 30).map (fun b => b % 256)).getD 28 0 * 256 +
          ((rest.take 30).map (fun b => b % 256)).getD 29 0 =
        (0x42 + 0x4D + (((rest.take 30).map (fun b => b % 256)).take 28).sum) % 65536 :=
  ⟨by decide, C1_readPMS_checksum _ ⟨0, 0, 0⟩ (by decide)⟩

/-- C5: on every failing `readPMS` call (timeout, short read, or
checksum mismatch) the `pmsData` fields are left exactly as they were
before the call. -/
theorem C5_readPMS_failure_preserves (s : List Nat) (d : PMSData)
    (h : (readPMS s d).1 = false) : (readPMS s d).2.1 = d := by
  revert h
  unfold readPMS
  split
  · intro _; rfl
  next rest heq =>
    split
    · intro _; rfl
    next hl =>
      split
      next hc => intro _; rfl
      next hc => intro h; simp at h

/-- C5 witness: the empty stream (timeout with no sync found) leaves
`pmsData` untouched. -/
theorem C5_readPMS_failure_preserves_witness :
    (readPMS [] ⟨7, 8, 9⟩).1 = false ∧ (readPMS [] ⟨7, 8, 9⟩).2.1 = ⟨7, 8, 9⟩ :=
  ⟨by decide, C5_readPMS_failure_preserves [] ⟨7, 8, 9⟩ (by decide)⟩

/-- C4 counterexample: for the spec's own scenario-D field string the
XOR checksum is `0x03`, which `Serial.println(checksum, HEX)` emits as
the single digit `"3"`, not as two hexadecimal digits. -/
theorem C4_two_digit_counterexample :
    calculateChecksum "10,12,11,20.5,1013.25,45.0,100.2" = 3 ∧
    printHex (calculateChecksum "10,12,11,20.5,1013.25,45.0,100.2") = "3" ∧
    ¬ (printHex (calculateChecksum "10,12,11,20.5,1013.25,45.0,100.2")).length = 2 := by
  decide

set_option maxRecDepth 4000 in
/-- C4 (amended): for every byte-valued field string, the output-record
checksum equals the XOR of every character excluding the commas, and it
is emitted in uppercase hexadecimal without leading-zero padding: every
emitted character is an uppercase hex digit, and the rendering has two
digits exactly when the checksum value is at least `0x10`. -/
theorem C4_output_checksum (s : String)
    (h : ∀ c ∈ s.data, c.toNat < 256) :
    calculateChecksum s = xorNonComma s ∧
    (∀ c ∈ (printHex (calculateChecksum s)).data, c ∈ ("0123456789ABCDEF" : String).data) ∧
    ((printHex (calculateChecksum s)).length = 2 ↔ 16 ≤ calculateChecksum s) := by
  have hlt : calculateChecksum s < 256 := calculateChecksum_lt s
  refine ⟨foldl_chk_eq s.data 0 (by norm_num) h, ?_, ?_⟩
  · have hall : ∀ m, m < 256 →
        ∀ c ∈ (printHex m).data, c ∈ ("0123456789ABCDEF" : String).data := by decide
    exact hall _ hlt
  · have hall : ∀ m, m < 256 → ((printHex m).length = 2 ↔ 16 ≤ m) := by decide
    exact hall _ hlt

set_option maxRecDepth 4000 in
/-- C4 witness: the amended statement evaluated on the scenario-D field
string (checksum `0x03`, emitted as `"3"`). -/
theorem C4_output_checksum_witness :
    (∀ c ∈ ("10,12,11,20.5,1013.25,45.0,100.2" : String).data, c.toNat < 256) ∧
    (calculateChecksum "10,12,11,20.5,1013.25,45.0,100.2" =
        xorNonComma "10,12,11,20.5,1013.25,45.0,100.2" ∧
      (∀ c ∈ (printHex (calculateChecksum "10,12,11,20.5,1013.25,45.0,100.2")).data,
          c ∈ ("0123456789ABCDEF" : String).data) ∧
      ((printHex (calculateChecksum "10,12,11,20.5,1013.25,45.0,100.2")).length = 2 ↔
          16 ≤ calculateChecksum "10,12,11,20.5,1013.25,45.0,100.2")) :=
  ⟨by decide, C4_output_checksum _ (by decide)⟩

/-- C10: the averaging division is reached only when the valid-sample
count is at least `MIN_VALID_SAMPLES = 3`, so the divisor is nonzero. -/
theorem C10_division_guarded (o : Nat → Option PMSData) (r : PMSData)
    (h : collectData o = some r) :
    MIN_VALID_SAMPLES ≤ ((runCollect o).1).valid ∧ 0 < ((runCollect o).1).valid := by
  unfold collectData at h
  by_cases hv : ((runCollect o).1).valid < MIN_VALID_SAMPLES
  · simp [hv] at h
  · have h3 := Nat.not_lt.mp hv
    exact ⟨h3, lt_of_lt_of_le (by norm_num [MIN_VALID_SAMPLES]) h3⟩

/-- C10 witness: a cycle with five valid frames reaches the division
with divisor 5. -/
theorem C10_division_guarded_witness :
    collectData (fun _ => some ⟨1, 2, 3⟩) = some ⟨1, 2, 3⟩ ∧
    (MIN_VALID_SAMPLES ≤ ((runCollect (fun _ => some ⟨1, 2, 3⟩)).1).valid ∧
      0 < ((runCollect (fun _ => some ⟨1, 2, 3⟩)).1).valid) :=
  ⟨by decide, C10_division_guarded _ ⟨1, 2, 3⟩ (by decide)⟩

end AirLink


-- ===== Aggregator lemmas and claim theorems (second batch) =====

namespace AirLink

/-- Sum of a list of naturals bounded by `m` is at most `length * m`. -/
lemma list_sum_le (l : List Nat) (m : Nat) (h : ∀ x ∈ l, x ≤ m) :
    l.sum ≤ l.length * m := by
  induction l with
  | nil => simp
  | cons x t ih =>
    simp only [List.sum_cons, List.length_cons]
    have hx := h x (List.mem_cons_self x t)
    have ht := ih (fun y hy => h y (List.mem_cons_of_mem x hy))
    calc x + t.sum ≤ m + t.length * m := by omega
      _ = (t.length + 1) * m := by ring

/-- Every frame the sampling loop accepts is one of the reader's
outcomes. -/
lemma acceptedFrom_mem (o : Nat → Option PMSData) :
    ∀ fuel i v d, d ∈ acceptedFrom o fuel i v → ∃ n, o n = some d := by
  intro fuel
  induction fuel with
  | zero => intro i v d hd; simp [acceptedFrom] at hd
  | succ fuel ih =>
    intro i v d hd
    by_cases hlt : v < NUM_SAMPLES
    · cases ho : o i with
      | some e =>
        rw [show acceptedFrom o (fuel + 1) i v = e :: acceptedFrom o fuel (i + 1) (v + 1) from
          by simp [acceptedFrom, hlt, ho]] at hd
        rcases List.mem_cons.mp hd with rfl | hd'
        · exact ⟨i, ho⟩
        · exact ih (i + 1) (v + 1) d hd'
      | none =>
        rw [show acceptedFrom o (fuel + 1) i v = acceptedFrom o fuel (i + 1) v from
          by simp [acceptedFrom, hlt, ho]] at hd
        exact ih (i + 1) v d hd
    · simp [acceptedFrom, hlt] at hd

/-- Master characterization of the sampling loop: with byte-bounded
field values the `uint32_t` accumulators never wrap, and the loop
computes exactly the channel sums and count of the accepted-frame
list. -/
lemma collectLoop_spec (o : Nat → Option PMSData)
    (hb : ∀ n d, o n = some d → d.pm1_0 < 65536 ∧ d.pm2_5 < 65536 ∧ d.pm10_0 < 65536) :
    ∀ fuel i v s1 s2 s3 c, v ≤ NUM_SAMPLES →
      s1 ≤ v * 65535 → s2 ≤ v * 65535 → s3 ≤ v * 65535 →
      collectLoop o fuel i ⟨s1, s2, s3, v⟩ c =
          (⟨s1 + ((acceptedFrom o fuel i v).map PMSData.pm1_0).sum,
            s2 + ((acceptedFrom o fuel i v).map PMSData.pm2_5).sum,
            s3 + ((acceptedFrom o fuel i v).map PMSData.pm10_0).sum,
            v + (acceptedFrom o fuel i v).length⟩,
           c + itersFrom o fuel i v) ∧
        v + (acceptedFrom o fuel i v).length ≤ NUM_SAMPLES := by
  intro fuel
  induction fuel with
  | zero =>
    intro i v s1 s2 s3 c hv h1 h2 h3
    refine ⟨by simp [collectLoop, acceptedFrom, itersFrom], by simpa [acceptedFrom] using hv⟩
  | succ fuel ih =>
    intro i v s1 s2 s3 c hv h1 h2 h3
    have hN : NUM_SAMPLES = 5 := rfl
    by_cases hlt : v < NUM_SAMPLES
    · cases ho : o i with
      | some d =>
        have hd := hb i d ho
        have hv5 : v + 1 ≤ NUM_SAMPLES := by omega
        have hvm : v * 65535 ≤ 5 * 65535 := Nat.mul_le_mul (by omega) (le_refl 65535)
        have hm1 : (s1 + d.pm1_0) % 4294967296 = s1 + d.pm1_0 := Nat.mod_eq_of_lt (by omega)
        have hm2 : (s2 + d.pm2_5) % 4294967296 = s2 + d.pm2_5 := Nat.mod_eq_of_lt (by omega)
        have hm3 : (s3 + d.pm10_0) % 4294967296 = s3 + d.pm10_0 := Nat.mod_eq_of_lt (by omega)
        have hmv : (v + 1) % 256 = v + 1 := Nat.mod_eq_of_lt (by omega)
        have hmul : (v + 1) * 65535 = v * 65535 + 65535 := by ring
        have hb1 : s1 + d.pm1_0 ≤ (v + 1) * 65535 := by omega
        have hb2 : s2 + d.pm2_5 ≤ (v + 1) * 65535 := by omega
        have hb3 : s3 + d.pm10_0 ≤ (v + 1) * 65535 := by omega
        have key := ih (i + 1) (v + 1) (s1 + d.pm1_0) (s2 + d.pm2_5) (s3 + d.pm10_0) (c + 1)
          hv5 hb1 hb2 hb3
        have step : collectLoop o (fuel + 1) i ⟨s1, s2, s3, v⟩ c =
            collectLoop o fuel (i + 1) ⟨s1 + d.pm1_0, s2 + d.pm2_5, s3 + d.pm10_0, v + 1⟩ (c + 1) := by
          simp [collectLoop, hlt, ho, hm1, hm2, hm3, hmv]
        have hacc : acceptedFrom o (fuel + 1) i v = d :: acceptedFrom o fuel (i + 1) (v + 1) := by
          simp [acceptedFrom, hlt, ho]
        have hit : itersFrom o (fuel + 1) i v = itersFrom o fuel (i + 1) (v + 1) + 1 := by
          simp [itersFrom, hlt, ho]
        rw [step, hacc, hit]
        constructor
        · rw [key.1]
          simp only [List.map_cons, List.sum_cons, List.length_cons, Prod.mk.injEq, Acc.mk.injEq]
          omega
        · have := key.2
          simp only [List.length_cons]
          omega
      | none =>
        have key := ih (i + 1) v s1 s2 s3 (c + 1) hv h1 h2 h3
        have step : collectLoop o (fuel + 1) i ⟨s1, s2, s3, v⟩ c =
            collectLoop o fuel (i + 1) ⟨s1, s2, s3, v⟩ (c + 1) := by
          simp [collectLoop, hlt, ho]
        have hacc : acceptedFrom o (fuel + 1) i v = acceptedFrom o fuel (i + 1) v := by
          simp [acceptedFrom, hlt, ho]
        have hit : itersFrom o (fuel + 1) i v = itersFrom o fuel (i + 1) v + 1 := by
          simp [itersFrom, hlt, ho]
        rw [step, hacc, hit]
        constructor
        · rw [key.1]
          simp only [Prod.mk.injEq, Acc.mk.injEq]
          refine ⟨trivial, by omega⟩
        · exact key.2
    · have hacc : acceptedFrom o (fuel + 1) i v = [] := by simp [acceptedFrom, hlt]
      have hit : itersFrom o (fuel + 1) i v = 0 := by simp [itersFrom, hlt]
      have hstop : collectLoop o (fuel + 1) i ⟨s1, s2, s3, v⟩ c = (⟨s1, s2, s3, v⟩, c) := by
        simp [collectLoop, hlt]
      rw [hacc, hit, hstop]
      exact ⟨by simp, by simpa using hv⟩

/-- The final valid-sample count and call count of the sampling loop,
independent of any bound on the field values. -/
lemma collectLoop_valid_calls (o : Nat → Option PMSData) :
    ∀ fuel i v s1 s2 s3 c,
      ((collectLoop o fuel i ⟨s1, s2, s3, v⟩ c).1).valid =
          v + (acceptedFrom o fuel i v).length ∧
      (collectLoop o fuel i ⟨s1, s2, s3, v⟩ c).2 = c + itersFrom o fuel i v := by
  intro fuel
  induction fuel with
  | zero => intro i v s1 s2 s3 c; simp [collectLoop, acceptedFrom, itersFrom]
  | succ fuel ih =>
    intro i v s1 s2 s3 c
    have hN : NUM_SAMPLES = 5 := rfl
    by_cases hlt : v < NUM_SAMPLES
    · cases ho : o i with
      | some d =>
        have hmv : (v + 1) % 256 = v + 1 := Nat.mod_eq_of_lt (by omega)
        have step : collectLoop o (fuel + 1) i ⟨s1, s2, s3, v⟩ c =
            collectLoop o fuel (i + 1)
              ⟨(s1 + d.pm1_0) % 4294967296, (s2 + d.pm2_5) % 4294967296,
               (s3 + d.pm10_0) % 4294967296, v + 1⟩ (c + 1) := by
          simp [collectLoop, hlt, ho, hmv]
        have hacc : acceptedFrom o (fuel + 1) i v = d :: acceptedFrom o fuel (i + 1) (v + 1) := by
          simp [acceptedFrom, hlt, ho]
        have hit : itersFrom o (fuel + 1) i v = itersFrom o fuel (i + 1) (v + 1) + 1 := by
          simp [itersFrom, hlt, ho]
        have key := ih (i + 1) (v + 1) ((s1 + d.pm1_0) % 4294967296)
          ((s2 + d.pm2_5) % 4294967296) ((s3 + d.pm10_0) % 4294967296) (c + 1)
        rw [step, hacc, hit]
        refine ⟨?_, ?_⟩
        · rw [key.1]; simp only [List.length_cons]; omega
        · rw [key.2]; omega
      | none =>
        have step : collectLoop o (fuel + 1) i ⟨s1, s2, s3, v⟩ c =
            collectLoop o fuel (i + 1) ⟨s1, s2, s3, v⟩ (c + 1) := by
          simp [collectLoop, hlt, ho]
        have hacc : acceptedFrom o (fuel + 1) i v = acceptedFrom o fuel (i + 1) v := by
          simp [acceptedFrom, hlt, ho]
        have hit : itersFrom o (fuel + 1) i v = itersFrom o fuel (i + 1) v + 1 := by
          simp [itersFrom, hlt, ho]
        have key := ih (i + 1) v s1 s2 s3 (c + 1)
        rw [step, hacc, hit]
        exact ⟨key.1, by rw [key.2]; omega⟩
    · have hacc : acceptedFrom o (fuel + 1) i v = [] := by simp [acceptedFrom, hlt]
      have hit : itersFrom o (fuel + 1) i v = 0 := by simp [itersFrom, hlt]
      have hstop : collectLoop o (fuel + 1) i ⟨s1, s2, s3, v⟩ c = (⟨s1, s2, s3, v⟩, c) := by
        simp [collectLoop, hlt]
      rw [hacc, hit, hstop]
      simp

/-- The sampling loop makes at most `fuel` attempts. -/
lemma itersFrom_le (o : Nat → Option PMSData) : ∀ fuel i v, itersFrom o fuel i v ≤ fuel := by
  intro fuel
  induction fuel with
  | zero => intro i v; simp [itersFrom]
  | succ fuel ih =>
    intro i v
    by_cases hlt : v < NUM_SAMPLES
    · cases ho : o i with
      | some d =>
        rw [show itersFrom o (fuel + 1) i v = itersFrom o fuel (i + 1) (v + 1) + 1 from
          by simp [itersFrom, hlt, ho]]
        have := ih (i + 1) (v + 1); omega
      | none =>
        rw [show itersFrom o (fuel + 1) i v = itersFrom o fuel (i + 1) v + 1 from
          by simp [itersFrom, hlt, ho]]
        have := ih (i + 1) v; omega
    · simp [itersFrom, hlt]

/-- `validCount` is monotone in the number of attempts. -/
lemma validCount_mono (o : Nat → Option PMSData) {m n : Nat} (h : m ≤ n) :
    validCount o m ≤ validCount o n := by
  induction n with
  | zero => have : m = 0 := by omega
            subst this; exact le_refl _
  | succ n ih =>
    by_cases hmn : m ≤ n
    · have hstep : validCount o (n + 1) = validCount o n + (if (o n).isSome then 1 else 0) := rfl
      have := ih hmn
      omega
    · have hm : m = n + 1 := by omega
      subst hm; exact le_refl _

/-- Stopping behaviour of the sampling loop: it runs either until its
attempt budget is exhausted or until exactly `NUM_SAMPLES` valid frames
have been seen, whichever comes first, and the frames it accepts are
precisely the valid outcomes up to its stopping point. -/
lemma itersFrom_spec (o : Nat → Option PMSData) :
    ∀ fuel i v, v = validCount o i → v ≤ NUM_SAMPLES →
      (itersFrom o fuel i v = fuel ∨
        validCount o (i + itersFrom o fuel i v) = NUM_SAMPLES) ∧
      (∀ m, i ≤ m → m < i + itersFrom o fuel i v → validCount o m < NUM_SAMPLES) ∧
      v + (acceptedFrom o fuel i v).length = validCount o (i + itersFrom o fuel i v) := by
  intro fuel
  induction fuel with
  | zero =>
    intro i v hvc hv
    rw [show itersFrom o 0 i v = 0 from rfl, show acceptedFrom o 0 i v = [] from rfl]
    exact ⟨Or.inl rfl, fun m h1 h2 => by omega, by simpa using hvc⟩
  | succ fuel ih =>
    intro i v hvc hv
    by_cases hlt : v < NUM_SAMPLES
    · cases ho : o i with
      | some d =>
        have hvc1 : v + 1 = validCount o (i + 1) := by
          have hstep : validCount o (i + 1) = validCount o i + (if (o i).isSome then 1 else 0) := rfl
          rw [hstep, ho]; simp; omega
        have key := ih (i + 1) (v + 1) hvc1 (by omega)
        have hit : itersFrom o (fuel + 1) i v = itersFrom o fuel (i + 1) (v + 1) + 1 := by
          simp [itersFrom, hlt, ho]
        have hacc : acceptedFrom o (fuel + 1) i v = d :: acceptedFrom o fuel (i + 1) (v + 1) := by
          simp [acceptedFrom, hlt, ho]
        have hre : i + (itersFrom o fuel (i + 1) (v + 1) + 1) =
            (i + 1) + itersFrom o fuel (i + 1) (v + 1) := by omega
        rw [hit, hacc]
        refine ⟨?_, ?_, ?_⟩
        · rcases key.1 with h | h
          · exact Or.inl (by omega)
          · exact Or.inr (by rw [hre]; exact h)
        · intro m hm1 hm2
          rcases Nat.eq_or_lt_of_le hm1 with rfl | hm
          · omega
          · exact key.2.1 m (by omega) (by omega)
        · rw [List.length_cons, hre]
          have := key.2.2
          omega
      | none =>
        have hvc1 : v = validCount o (i + 1) := by
          have hstep : validCount o (i + 1) = validCount o i + (if (o i).isSome then 1 else 0) := rfl
          rw [hstep, ho]; simp; omega
        have key := ih (i + 1) v hvc1 hv
        have hit : itersFrom o (fuel + 1) i v = itersFrom o fuel (i + 1) v + 1 := by
          simp [itersFrom, hlt, ho]
        have hacc : acceptedFrom o (fuel + 1) i v = acceptedFrom o fuel (i + 1) v := by
          simp [acceptedFrom, hlt, ho]
        have hre : i + (itersFrom o fuel (i + 1) v + 1) = (i + 1) + itersFrom o fuel (i + 1) v := by
          omega
        rw [hit, hacc]
        refine ⟨?_, ?_, ?_⟩
        · rcases key.1 with h | h
          · exact Or.inl (by omega)
          · exact Or.inr (by rw [hre]; exact h)
        · intro m hm1 hm2
          rcases Nat.eq_or_lt_of_le hm1 with rfl | hm
          · omega
          · exact key.2.1 m (by omega) (by omega)
        · rw [hre]
          have := key.2.2
          omega
    · have hit : itersFrom o (fuel + 1) i v = 0 := by simp [itersFrom, hlt]
      have hacc : acceptedFrom o (fuel + 1) i v = [] := by simp [acceptedFrom, hlt]
      rw [hit, hacc]
      refine ⟨Or.inr ?_, fun m h1 h2 => by omega, by simpa using hvc⟩
      rw [Nat.add_zero]
      omega

end AirLink


namespace AirLink

/-- C2: in every cycle accepting `k` valid frames with
`MIN_VALID_SAMPLES ≤ k` (and necessarily `k ≤ NUM_SAMPLES`), each
channel of the returned reading is the floor of that channel's summed
valid values divided by `k`, with integer truncation. -/
theorem C2_truncated_average (o : Nat → Option PMSData)
    (hb : ∀ n d, o n = some d → d.pm1_0 < 65536 ∧ d.pm2_5 < 65536 ∧ d.pm10_0 < 65536)
    (hk : MIN_VALID_SAMPLES ≤ (accepted o).length) :
    (accepted o).length ≤ NUM_SAMPLES ∧
    collectData o =
      some ⟨((accepted o).map PMSData.pm1_0).sum / (accepted o).length,
            ((accepted o).map PMSData.pm2_5).sum / (accepted o).length,
            ((accepted o).map PMSData.pm10_0).sum / (accepted o).length⟩ := by
  have hM : MIN_VALID_SAMPLES = 3 := rfl
  obtain ⟨heq, hle⟩ := collectLoop_spec o hb (NUM_SAMPLES * 2) 0 0 0 0 0 0
    (by omega) (by omega) (by omega) (by omega)
  have hrun : (runCollect o).1 =
      ⟨((accepted o).map PMSData.pm1_0).sum,
       ((accepted o).map PMSData.pm2_5).sum,
       ((accepted o).map PMSData.pm10_0).sum,
       (accepted o).length⟩ := by
    unfold runCollect
    rw [heq]
    simp [accepted]
  have hle5 : (accepted o).length ≤ NUM_SAMPLES := by
    have := hle; simp only [accepted] at *; omega
  have hbound : ∀ f : PMSData → Nat, (∀ d, (∃ n, o n = some d) → f d ≤ 65535) →
      ((accepted o).map f).sum ≤ (accepted o).length * 65535 := by
    intro f hf
    have := list_sum_le ((accepted o).map f) 65535 (by
      intro x hx
      rcases List.mem_map.mp hx with ⟨d, hd, rfl⟩
      exact hf d (acceptedFrom_mem o (NUM_SAMPLES * 2) 0 0 d hd))
    simpa using this
  have hs1 := hbound PMSData.pm1_0 (fun d hd => by rcases hd with ⟨n, hn⟩; have := (hb n d hn).1; omega)
  have hs2 := hbound PMSData.pm2_5 (fun d hd => by rcases hd with ⟨n, hn⟩; have := (hb n d hn).2.1; omega)
  have hs3 := hbound PMSData.pm10_0 (fun d hd => by rcases hd with ⟨n, hn⟩; have := (hb n d hn).2.2; omega)
  have hk0 : 0 < (accepted o).length := by omega
  have hdivle : ∀ S : Nat, S ≤ (accepted o).length * 65535 → S / (accepted o).length ≤ 65535 := by
    intro S hS
    calc S / (accepted o).length ≤ (accepted o).length * 65535 / (accepted o).length :=
          Nat.div_le_div_right hS
      _ = 65535 := Nat.mul_div_cancel_left 65535 hk0
  refine ⟨hle5, ?_⟩
  unfold collectData
  rw [hrun]
  rw [if_neg (by simp only; omega)]
  simp only
  rw [Nat.mod_eq_of_lt (by have := hdivle _ hs1; omega),
      Nat.mod_eq_of_lt (by have := hdivle _ hs2; omega),
      Nat.mod_eq_of_lt (by have := hdivle _ hs3; omega)]

/-- C2 witness: five identical valid frames with values (10, 12, 11)
average to exactly (10, 12, 11). -/
theorem C2_truncated_average_witness :
    (∀ n d, (fun _ : Nat => some (⟨10, 12, 11⟩ : PMSData)) n = some d →
        d.pm1_0 < 65536 ∧ d.pm2_5 < 65536 ∧ d.pm10_0 < 65536) ∧
    MIN_VALID_SAMPLES ≤ (accepted (fun _ => some ⟨10, 12, 11⟩)).length ∧
    ((accepted (fun _ => some ⟨10, 12, 11⟩)).length ≤ NUM_SAMPLES ∧
      collectData (fun _ => some ⟨10, 12, 11⟩) =
        some ⟨((accepted (fun _ => some ⟨10, 12, 11⟩)).map PMSData.pm1_0).sum /
                (accepted (fun _ => some ⟨10, 12, 11⟩)).length,
              ((accepted (fun _ => some ⟨10, 12, 11⟩)).map PMSData.pm2_5).sum /
                (accepted (fun _ => some ⟨10, 12, 11⟩)).length,
              ((accepted (fun _ => some ⟨10, 12, 11⟩)).map PMSData.pm10_0).sum /
                (accepted (fun _ => some ⟨10, 12, 11⟩)).length⟩) :=
  ⟨fun n d hd => by injection hd with h; exact h ▸ (by decide),
   by decide,
   C2_truncated_average _ (fun n d hd => by injection hd with h; exact h ▸ (by decide)) (by decide)⟩

/-- C3: when fewer than `MIN_VALID_SAMPLES` valid frames occur over all
attempts, the aggregator reports no reading and the CSV variant emits no
output record at all for that cycle. -/
theorem C3_no_quorum_no_record (o : Nat → Option PMSData) (env : String)
    (h : validCount o (NUM_SAMPLES * 2) < MIN_VALID_SAMPLES) :
    collectData o = none ∧ cycleRecord o env = none := by
  have hv := (collectLoop_valid_calls o (NUM_SAMPLES * 2) 0 0 0 0 0 0).1
  have hspec := itersFrom_spec o (NUM_SAMPLES * 2) 0 0 rfl (by norm_num [NUM_SAMPLES])
  have hlen := hspec.2.2
  have hit := itersFrom_le o (NUM_SAMPLES * 2) 0 0
  have hle : validCount o (0 + itersFrom o (NUM_SAMPLES * 2) 0 0) ≤
      validCount o (NUM_SAMPLES * 2) := validCount_mono o (by omega)
  have hvalid : ((runCollect o).1).valid < MIN_VALID_SAMPLES := by
    unfold runCollect
    rw [hv]
    omega
  have hnone : collectData o = none := by unfold collectData; rw [if_pos hvalid]
  exact ⟨hnone, by simp [cycleRecord, hnone]⟩

/-- C3 witness: a cycle with no valid frame at all produces no reading
and no output record. -/
theorem C3_no_quorum_no_record_witness :
    validCount (fun _ => none) (NUM_SAMPLES * 2) < MIN_VALID_SAMPLES ∧
    (collectData (fun _ => none) = none ∧ cycleRecord (fun _ => none) "20.50,101325.00,45.00,100.20" = none) :=
  ⟨by decide, C3_no_quorum_no_record _ "20.50,101325.00,45.00,100.20" (by decide)⟩

/-- C6: every cycle invokes the frame reader at most
`NUM_SAMPLES * 2 = 10` times, and stops invoking it as soon as
`NUM_SAMPLES = 5` valid frames have been collected: the loop runs to the
attempt bound or to the first point where five outcomes were valid,
whichever comes first (and, being a total function of the outcomes, it
always terminates). -/
theorem C6_reader_calls_bounded (o : Nat → Option PMSData) :
    readerCalls o ≤ NUM_SAMPLES * 2 ∧
    (readerCalls o = NUM_SAMPLES * 2 ∨ validCount o (readerCalls o) = NUM_SAMPLES) ∧
    ∀ m, m < readerCalls o → validCount o m < NUM_SAMPLES := by
  have hc := (collectLoop_valid_calls o (NUM_SAMPLES * 2) 0 0 0 0 0 0).2
  have hcalls : readerCalls o = itersFrom o (NUM_SAMPLES * 2) 0 0 := by
    unfold readerCalls runCollect
    rw [hc]
    omega
  have hspec := itersFrom_spec o (NUM_SAMPLES * 2) 0 0 rfl (by norm_num [NUM_SAMPLES])
  refine ⟨?_, ?_, ?_⟩
  · rw [hcalls]; exact itersFrom_le o _ _ _
  · rw [hcalls]
    rcases hspec.1 with h | h
    · exact Or.inl h
    · exact Or.inr (by simpa using h)
  · intro m hm
    rw [hcalls] at hm
    exact hspec.2.1 m (Nat.zero_le m) (by omega)

/-- C6 witness: with every attempt failing, the reader is invoked
exactly the maximum 10 times and never more. -/
theorem C6_reader_calls_bounded_witness :
    readerCalls (fun _ => none) ≤ NUM_SAMPLES * 2 ∧
    (readerCalls (fun _ => none) = NUM_SAMPLES * 2 ∨
      validCount (fun _ => none) (readerCalls (fun _ => none)) = NUM_SAMPLES) ∧
    ∀ m, m < readerCalls (fun _ => none) → validCount (fun _ => none) m < NUM_SAMPLES :=
  C6_reader_calls_bounded (fun _ => none)

/-- C9: with 16-bit field values and at most `NUM_SAMPLES = 5` accepted
frames, the `uint32_t` channel accumulators hold the exact sums (no
wrap-around: each is at most `5 * 65535 = 327675 < 2 ^ 32`), each
truncated average is at most 65535, and the 16-bit assignment of the
average (`% 65536`) loses no information. -/
theorem C9_accumulators_no_overflow (o : Nat → Option PMSData)
    (hb : ∀ n d, o n = some d → d.pm1_0 < 65536 ∧ d.pm2_5 < 65536 ∧ d.pm10_0 < 65536) :
    ((runCollect o).1).sum_pm1 = ((accepted o).map PMSData.pm1_0).sum ∧
    ((runCollect o).1).sum_pm25 = ((accepted o).map PMSData.pm2_5).sum ∧
    ((runCollect o).1).sum_pm10 = ((accepted o).map PMSData.pm10_0).sum ∧
    ((runCollect o).1).sum_pm1 ≤ 327675 ∧
    ((runCollect o).1).sum_pm25 ≤ 327675 ∧
    ((runCollect o).1).sum_pm10 ≤ 327675 ∧
    ((runCollect o).1).sum_pm1 / ((runCollect o).1).valid ≤ 65535 ∧
    ((runCollect o).1).sum_pm25 / ((runCollect o).1).valid ≤ 65535 ∧
    ((runCollect o).1).sum_pm10 / ((runCollect o).1).valid ≤ 65535 ∧
    ((runCollect o).1).sum_pm1 / ((runCollect o).1).valid % 65536 =
      ((runCollect o).1).sum_pm1 / ((runCollect o).1).valid ∧
    ((runCollect o).1).sum_pm25 / ((runCollect o).1).valid % 65536 =
      ((runCollect o).1).sum_pm25 / ((runCollect o).1).valid ∧
    ((runCollect o).1).sum_pm10 / ((runCollect o).1).valid % 65536 =
      ((runCollect o).1).sum_pm10 / ((runCollect o).1).valid := by
  have hN : NUM_SAMPLES = 5 := rfl
  obtain ⟨heq, hle⟩ := collectLoop_spec o hb (NUM_SAMPLES * 2) 0 0 0 0 0 0
    (by omega) (by omega) (by omega) (by omega)
  have hrun : (runCollect o).1 =
      ⟨((accepted o).map PMSData.pm1_0).sum,
       ((accepted o).map PMSData.pm2_5).sum,
       ((accepted o).map PMSData.pm10_0).sum,
       (accepted o).length⟩ := by
    unfold runCollect
    rw [heq]
    simp [accepted]
  have hle5 : (accepted o).length ≤ 5 := by
    have := hle; simp only [accepted] at *; omega
  have hbound : ∀ f : PMSData → Nat, (∀ d, (∃ n, o n = some d) → f d ≤ 65535) →
      ((accepted o).map f).sum ≤ (accepted o).length * 65535 := by
    intro f hf
    have := list_sum_le ((accepted o).map f) 65535 (by
      intro x hx
      rcases List.mem_map.mp hx with ⟨d, hd, rfl⟩
      exact hf d (acceptedFrom_mem o (NUM_SAMPLES * 2) 0 0 d hd))
    simpa using this
  have hs1 := hbound PMSData.pm1_0 (fun d hd => by rcases hd with ⟨n, hn⟩; have := (hb n d hn).1; omega)
  have hs2 := hbound PMSData.pm2_5 (fun d hd => by rcases hd with ⟨n, hn⟩; have := (hb n d hn).2.1; omega)
  have hs3 := hbound PMSData.pm10_0 (fun d hd => by rcases hd with ⟨n, hn⟩; have := (hb n d hn).2.2; omega)
  have hmul : (accepted o).length * 65535 ≤ 327675 :=
    le_trans (Nat.mul_le_mul hle5 (le_refl 65535)) (by norm_num)
  have hdivle : ∀ S : Nat, S ≤ (accepted o).length * 65535 →
      S / (accepted o).length ≤ 65535 := by
    intro S hS
    rcases Nat.eq_zero_or_pos (accepted o).length with hz | hk0
    · rw [hz] at hS
      simp only [Nat.zero_mul, Nat.le_zero] at hS
      simp [hS]
    · calc S / (accepted o).length ≤ (accepted o).length * 65535 / (accepted o).length :=
            Nat.div_le_div_right hS
        _ = 65535 := Nat.mul_div_cancel_left 65535 hk0
  have hd1 := hdivle _ hs1
  have hd2 := hdivle _ hs2
  have hd3 := hdivle _ hs3
  rw [hrun]
  simp only
  refine ⟨trivial, trivial, trivial, by omega, by omega, by omega, hd1, hd2, hd3,
    Nat.mod_eq_of_lt (by omega), Nat.mod_eq_of_lt (by omega), Nat.mod_eq_of_lt (by omega)⟩

/-- C9 witness: five maximal frames (all fields 65535) drive each
accumulator to exactly 327675 with average 65535, untruncated. -/
theorem C9_accumulators_no_overflow_witness :
    (∀ n d, (fun _ : Nat => some (⟨65535, 65535, 65535⟩ : PMSData)) n = some d →
        d.pm1_0 < 65536 ∧ d.pm2_5 < 65536 ∧ d.pm10_0 < 65536) ∧
    (((runCollect (fun _ => some ⟨65535, 65535, 65535⟩)).1).sum_pm1 =
        (((accepted (fun _ => some ⟨65535, 65535, 65535⟩))).map PMSData.pm1_0).sum ∧
      ((runCollect (fun _ => some ⟨65535, 65535, 65535⟩)).1).sum_pm25 =
        (((accepted (fun _ => some ⟨65535, 65535, 65535⟩))).map PMSData.pm2_5).sum ∧
      ((runCollect (fun _ => some ⟨65535, 65535, 65535⟩)).1).sum_pm10 =
        (((accepted (fun _ => some ⟨65535, 65535, 65535⟩))).map PMSData.pm10_0).sum ∧
      ((runCollect (fun _ => some ⟨65535, 65535, 65535⟩)).1).sum_pm1 ≤ 327675 ∧
      ((runCollect (fun _ => some ⟨65535, 65535, 65535⟩)).1).sum_pm25 ≤ 327675 ∧
      ((runCollect (fun _ => some ⟨65535, 65535, 65535⟩)).1).sum_pm10 ≤ 327675 ∧
      ((runCollect (fun _ => some ⟨65535, 65535, 65535⟩)).1).sum_pm1 /
          ((runCollect (fun _ => some ⟨65535, 65535, 65535⟩)).1).valid ≤ 65535 ∧
      ((runCollect (fun _ => some ⟨65535, 65535, 65535⟩)).1).sum_pm25 /
          ((runCollect (fun _ => some ⟨65535, 65535, 65535⟩)).1).valid ≤ 65535 ∧
      ((runCollect (fun _ => some ⟨65535, 65535, 65535⟩)).1).sum_pm10 /
          ((runCollect (fun _ => some ⟨65535, 65535, 65535⟩)).1).valid ≤ 65535 ∧
      ((runCollect (fun _ => some ⟨65535, 65535, 65535⟩)).1).sum_pm1 /
            ((runCollect (fun _ => some ⟨65535, 65535, 65535⟩)).1).valid % 65536 =
        ((runCollect (fun _ => some ⟨65535, 65535, 65535⟩)).1).sum_pm1 /
          ((runCollect (fun _ => some ⟨65535, 65535, 65535⟩)).1).valid ∧
      ((runCollect (fun _ => some ⟨65535, 65535, 65535⟩)).1).sum_pm25 /
            ((runCollect (fun _ => some ⟨65535, 65535, 65535⟩)).1).valid % 65536 =
        ((runCollect (fun _ => some ⟨65535, 65535, 65535⟩)).1).sum_pm25 /
          ((runCollect (fun _ => some ⟨65535, 65535, 65535⟩)).1).valid ∧
      ((runCollect (fun _ => some ⟨65535, 65535, 65535⟩)).1).sum_pm10 /
            ((runCollect (fun _ => some ⟨65535, 65535, 65535⟩)).1).valid % 65536 =
        ((runCollect (fun _ => some ⟨65535, 65535, 65535⟩)).1).sum_pm10 /
          ((runCollect (fun _ => some ⟨65535, 65535, 65535⟩)).1).valid) :=
  ⟨fun n d hd => by injection hd with h; exact h ▸ (by decide),
   C9_accumulators_no_overflow _ (fun n d hd => by injection hd with h; exact h ▸ (by decide))⟩

end AirLink


namespace AirLink

/-- Unfolding of `syncScan` on a stream with at least two bytes. -/
lemma syncScan_cons_cons (a b : Nat) (t : List Nat) :
    syncScan (a :: b :: t) =
      if a % 256 = 0x42 then
        if b % 256 = 0x4D then some t else syncScan t
      else syncScan (b :: t) := rfl

/-- The byte-consuming sync scan, started at suffix `i`, agrees with the
index-based spec scan. -/
lemma syncScan_eq_specScan (s : List Nat) :
    ∀ k i, s.length - i ≤ k →
      syncScan (s.drop i) = (specScan s i).map (fun j => s.drop (j + 2)) := by
  intro k
  induction k with
  | zero =>
    intro i hk
    have hi : s.length ≤ i := by omega
    rw [List.drop_eq_nil_of_le hi, specScan, dif_neg (by omega)]
    rfl
  | succ k ih =>
    intro i hk
    by_cases hi : i < s.length
    · have hd1 : s.drop i = s[i] :: s.drop (i + 1) := List.drop_eq_getElem_cons hi
      by_cases hj : i + 1 < s.length
      · have hd2 : s.drop (i + 1) = s[i + 1] :: s.drop (i + 2) :=
          List.drop_eq_getElem_cons hj
        rw [hd1, hd2, syncScan_cons_cons, specScan, dif_pos hi, List.getD_eq_getElem s 0 hi]
        by_cases h42 : s[i] % 256 = 0x42
        · rw [if_pos h42, if_pos h42, dif_pos hj, List.getD_eq_getElem s 0 hj]
          by_cases h4D : s[i + 1] % 256 = 0x4D
          · rw [if_pos h4D, if_pos h4D]
            rfl
          · rw [if_neg h4D, if_neg h4D]
            exact ih (i + 2) (by omega)
        · rw [if_neg h42, if_neg h42, ← hd2]
          exact ih (i + 1) (by omega)
      · have hnil : s.drop (i + 1) = [] := List.drop_eq_nil_of_le (by omega)
        rw [hd1, hnil, specScan, dif_pos hi, List.getD_eq_getElem s 0 hi]
        by_cases h42 : s[i] % 256 = 0x42
        · rw [if_pos h42, dif_neg hj]
          rfl
        · rw [if_neg h42, specScan, dif_neg (show ¬ i + 1 < s.length from hj)]
          rfl
    · rw [List.drop_eq_nil_of_le (by omega), specScan, dif_neg hi]
      rfl

/-- Whatever position the spec scan locks onto carries the sync pair,
with both bytes inside the stream. -/
lemma specScan_locks (s : List Nat) :
    ∀ k i j, s.length - i ≤ k → specScan s i = some j →
      j + 1 < s.length ∧ s.getD j 0 % 256 = 0x42 ∧ s.getD (j + 1) 0 % 256 = 0x4D := by
  intro k
  induction k with
  | zero =>
    intro i j hk hs
    rw [specScan, dif_neg (by omega)] at hs
    exact absurd hs (by simp)
  | succ k ih =>
    intro i j hk hs
    by_cases hi : i < s.length
    · rw [specScan, dif_pos hi] at hs
      by_cases h42 : s.getD i 0 % 256 = 0x42
      · rw [if_pos h42] at hs
        by_cases hj2 : i + 1 < s.length
        · rw [dif_pos hj2] at hs
          by_cases h4D : s.getD (i + 1) 0 % 256 = 0x4D
          · rw [if_pos h4D] at hs
            injection hs with hs
            subst hs
            exact ⟨hj2, h42, h4D⟩
          · rw [if_neg h4D] at hs
            exact ih (i + 2) j (by omega) hs
        · rw [dif_neg hj2] at hs
          exact absurd hs (by simp)
      · rw [if_neg h42] at hs
        exact ih (i + 1) j (by omega) hs
    · rw [specScan, dif_neg hi] at hs
      exact absurd hs (by simp)

/-- C7: the reader's sync search implements exactly the spec's no-replay
scanning rule: its result is the suffix following the pair found by the
index-based rescan rule (which only ever moves forward past consumed
bytes), and any locked position indeed carries `0x42, 0x4D`. -/
theorem C7_resync_no_replay (s : List Nat) :
    syncScan s = (specScan s 0).map (fun j => s.drop (j + 2)) ∧
    ∀ j, specScan s 0 = some j → j + 1 < s.length ∧
      s.getD j 0 % 256 = 0x42 ∧ s.getD (j + 1) 0 % 256 = 0x4D := by
  constructor
  · have h := syncScan_eq_specScan s s.length 0 (by omega)
    simpa using h
  · intro j hj
    exact specScan_locks s s.length 0 j (by omega) hj

/-- C7 witness: a stream where the naive first adjacent pair (positions
2-3) is skipped because its `0x42` was consumed as a failed second sync
byte; both scans agree on the outcome. -/
theorem C7_resync_no_replay_witness :
    syncScan [0, 0x42, 0x42, 0x4D, 9] =
      (specScan [0, 0x42, 0x42, 0x4D, 9] 0).map
        (fun j => ([0, 0x42, 0x42, 0x4D, 9] : List Nat).drop (j + 2)) ∧
    ∀ j, specScan [0, 0x42, 0x42, 0x4D, 9] 0 = some j →
      j + 1 < ([0, 0x42, 0x42, 0x4D, 9] : List Nat).length ∧
      ([0, 0x42, 0x42, 0x4D, 9] : List Nat).getD j 0 % 256 = 0x42 ∧
      ([0, 0x42, 0x42, 0x4D, 9] : List Nat).getD (j + 1) 0 % 256 = 0x4D :=
  C7_resync_no_replay [0, 0x42, 0x42, 0x4D, 9]

/-- Dropping the head byte cannot create a sync pair. -/
lemma hasSyncPair_tail (x : Nat) (l : List Nat) (h : hasSyncPair (x :: l) = false) :
    hasSyncPair l = false := by
  cases l with
  | nil => rfl
  | cons y t =>
    have he : hasSyncPair (x :: y :: t) =
        ((x % 256 == 0x42 && y % 256 == 0x4D) || hasSyncPair (y :: t)) := rfl
    rw [he] at h
    exact (Bool.or_eq_false_iff.mp h).2

/-- Unfolding equations of the timed sync search. -/
lemma syncSearchT_succ_nil (clock : Nat → Nat) (fuel n : Nat) :
    syncSearchT clock (fuel + 1) n [] =
      if PMS_TIMEOUT ≤ clock n - clock 0 then (false, n, [])
      else syncSearchT clock fuel (n + 1) [] := rfl

/-- Unfolding of the timed sync search on a one-byte stream. -/
lemma syncSearchT_succ_one (clock : Nat → Nat) (fuel n a : Nat) :
    syncSearchT clock (fuel + 1) n [a] =
      if PMS_TIMEOUT ≤ clock n - clock 0 then (false, n, [a])
      else syncSearchT clock fuel (n + 1) [] := rfl

/-- Unfolding of the timed sync search on a stream with two or more
bytes. -/
lemma syncSearchT_succ_cons_cons (clock : Nat → Nat) (fuel n a b : Nat) (t : List Nat) :
    syncSearchT clock (fuel + 1) n (a :: b :: t) =
      if PMS_TIMEOUT ≤ clock n - clock 0 then (false, n, a :: b :: t)
      else if a % 256 = 0x42 then
        if b % 256 = 0x4D then (true, n, t) else syncSearchT clock fuel (n + 1) t
      else syncSearchT clock fuel (n + 1) (b :: t) := rfl

/-- On a stream with no sync pair, the timed search fails, exits at the
first condition check at or past the deadline, and every byte-scanning
iteration happens strictly before the deadline. -/
lemma syncSearchT_no_sync (clock : Nat → Nat) :
    ∀ fuel n s, hasSyncPair s = false →
      PMS_TIMEOUT ≤ clock (n + fuel) - clock 0 →
      (syncSearchT clock fuel n s).1 = false ∧
      n ≤ (syncSearchT clock fuel n s).2.1 ∧
      PMS_TIMEOUT ≤ clock ((syncSearchT clock fuel n s).2.1) - clock 0 ∧
      ∀ m, n ≤ m → m < (syncSearchT clock fuel n s).2.1 →
        clock m - clock 0 < PMS_TIMEOUT := by
  intro fuel
  induction fuel with
  | zero =>
    intro n s hs hf
    refine ⟨rfl, le_refl n, by simpa using hf, fun m h1 h2 => ?_⟩
    have h2n : m < n := h2
    omega
  | succ fuel ih =>
    intro n s hs hf
    have hf' : PMS_TIMEOUT ≤ clock (n + 1 + fuel) - clock 0 := by
      rw [show n + 1 + fuel = n + (fuel + 1) from by omega]
      exact hf
    by_cases ht : PMS_TIMEOUT ≤ clock n - clock 0
    · cases s with
      | nil =>
        rw [syncSearchT_succ_nil, if_pos ht]
        refine ⟨rfl, le_refl n, ht, fun m h1 h2 => ?_⟩
        have h2n : m < n := h2
        omega
      | cons a t =>
        cases t with
        | nil =>
          rw [syncSearchT_succ_one, if_pos ht]
          refine ⟨rfl, le_refl n, ht, fun m h1 h2 => ?_⟩
          have h2n : m < n := h2
          omega
        | cons b t' =>
          rw [syncSearchT_succ_cons_cons, if_pos ht]
          refine ⟨rfl, le_refl n, ht, fun m h1 h2 => ?_⟩
          have h2n : m < n := h2
          omega
    · have hlt : clock n - clock 0 < PMS_TIMEOUT := by omega
      cases s with
      | nil =>
        rw [syncSearchT_succ_nil, if_neg ht]
        obtain ⟨k1, k2, k3, k4⟩ := ih (n + 1) [] rfl hf'
        refine ⟨k1, by omega, k3, fun m h1 h2 => ?_⟩
        rcases Nat.eq_or_lt_of_le h1 with rfl | h
        · exact hlt
        · exact k4 m (by omega) h2
      | cons a t =>
        cases t with
        | nil =>
          rw [syncSearchT_succ_one, if_neg ht]
          obtain ⟨k1, k2, k3, k4⟩ := ih (n + 1) [] rfl hf'
          refine ⟨k1, by omega, k3, fun m h1 h2 => ?_⟩
          rcases Nat.eq_or_lt_of_le h1 with rfl | h
          · exact hlt
          · exact k4 m (by omega) h2
        | cons b t' =>
          rw [syncSearchT_succ_cons_cons, if_neg ht]
          by_cases h42 : a % 256 = 0x42
          · by_cases h4D : b % 256 = 0x4D
            · exfalso
              simp [hasSyncPair, h42, h4D] at hs
            · rw [if_pos h42, if_neg h4D]
              have hs' : hasSyncPair t' = false :=
                hasSyncPair_tail b t' (hasSyncPair_tail a (b :: t') hs)
              obtain ⟨k1, k2, k3, k4⟩ := ih (n + 1) t' hs' hf'
              refine ⟨k1, by omega, k3, fun m h1 h2 => ?_⟩
              rcases Nat.eq_or_lt_of_le h1 with rfl | h
              · exact hlt
              · exact k4 m (by omega) h2
          · rw [if_neg h42]
            have hs' : hasSyncPair (b :: t') = false := hasSyncPair_tail a (b :: t') hs
            obtain ⟨k1, k2, k3, k4⟩ := ih (n + 1) (b :: t') hs' hf'
            refine ⟨k1, by omega, k3, fun m h1 h2 => ?_⟩
            rcases Nat.eq_or_lt_of_le h1 with rfl | h
            · exact hlt
            · exact k4 m (by omega) h2

/-- C8: on every stream in which the sync sequence never appears, the
sync-search loop of `readPMS` returns failure, exiting at the very first
loop-condition check at or past the `PMS_TIMEOUT = 2000` ms deadline
(measured from the start of the call), and performs no scanning
iteration at or after the deadline — it cannot run later.  `clock n` is
the `millis()` value at the `n`-th check; the hypothesis states that the
deadline passes within the modelled `fuel` checks. -/
theorem C8_timeout_failure (clock : Nat → Nat) (fuel : Nat) (s : List Nat)
    (hs : hasSyncPair s = false)
    (hf : PMS_TIMEOUT ≤ clock fuel - clock 0) :
    (syncSearchT clock fuel 0 s).1 = false ∧
    PMS_TIMEOUT ≤ clock ((syncSearchT clock fuel 0 s).2.1) - clock 0 ∧
    ∀ m, m < (syncSearchT clock fuel 0 s).2.1 → clock m - clock 0 < PMS_TIMEOUT := by
  have key := syncSearchT_no_sync clock fuel 0 s hs (by simpa using hf)
  exact ⟨key.1, key.2.2.1, fun m hm => key.2.2.2 m (Nat.zero_le m) hm⟩

/-- C8 witness: a clock advancing 2000 ms per check and a one-byte
stream with no sync pair; the search fails exactly at the first check
past the deadline. -/
theorem C8_timeout_failure_witness :
    hasSyncPair [0x42] = false ∧
    PMS_TIMEOUT ≤ (fun n => 2000 * n) 1 - (fun n => 2000 * n) 0 ∧
    ((syncSearchT (fun n => 2000 * n) 1 0 [0x42]).1 = false ∧
      PMS_TIMEOUT ≤ (fun n => 2000 * n) ((syncSearchT (fun n => 2000 * n) 1 0 [0x42]).2.1) -
        (fun n => 2000 * n) 0 ∧
      ∀ m, m < (syncSearchT (fun n => 2000 * n) 1 0 [0x42]).2.1 →
        (fun n => 2000 * n) m - (fun n => 2000 * n) 0 < PMS_TIMEOUT) :=
  ⟨by decide, by decide, C8_timeout_failure (fun n => 2000 * n) 1 [0x42] (by decide) (by decide)⟩

end AirLink
